import Mathlib

/-!
Shallow embedding of the terminis falling-block engine (src/main.py) and
verification of its specification claims.  Python machine state is modelled
with explicit state passing; `random.shuffle` is modelled as an injected
stream of permutations of the seven piece kinds; `time.time()` is an explicit
timestamp argument; Python floats are modelled as exact rationals.
-/

namespace Terminis

/-- The seven tetromino kinds, in the insertion order of the `TETROMINOES`
dict of src/main.py. -/
inductive Kind
| I
| J
| L
| O
| S
| T
| Z
deriving DecidableEq

/-- Python `list(TETROMINOES.keys())`: all seven kinds in dict order. -/
def allKinds : List Kind := [.I, .J, .L, .O, .S, .T, .Z]

/-- The `TETROMINOES` table: offsets of the 4 cells of each rotation state
inside the 4x4 local frame.  The rotation argument is reduced mod 4 exactly
as in `Piece.blocks` (`TETROMINOES[self.kind][self.rotation % 4]`). -/
def tetrominoes (k : Kind) (r : ℤ) : List (ℤ × ℤ) :=
  match k, (r % 4).toNat with
  | .I, 0 => [(0, 1), (1, 1), (2, 1), (3, 1)]
  | .I, 1 => [(2, 0), (2, 1), (2, 2), (2, 3)]
  | .I, 2 => [(0, 2), (1, 2), (2, 2), (3, 2)]
  | .I, _ => [(1, 0), (1, 1), (1, 2), (1, 3)]
  | .J, 0 => [(0, 0), (0, 1), (1, 1), (2, 1)]
  | .J, 1 => [(1, 0), (2, 0), (1, 1), (1, 2)]
  | .J, 2 => [(0, 1), (1, 1), (2, 1), (2, 2)]
  | .J, _ => [(1, 0), (1, 1), (0, 2), (1, 2)]
  | .L, 0 => [(2, 0), (0, 1), (1, 1), (2, 1)]
  | .L, 1 => [(1, 0), (1, 1), (1, 2), (2, 2)]
  | .L, 2 => [(0, 1), (1, 1), (2, 1), (0, 2)]
  | .L, _ => [(0, 0), (1, 0), (1, 1), (1, 2)]
  | .O, _ => [(1, 0), (2, 0), (1, 1), (2, 1)]
  | .S, 0 => [(1, 0), (2, 0), (0, 1), (1, 1)]
  | .S, 1 => [(1, 0), (1, 1), (2, 1), (2, 2)]
  | .S, 2 => [(1, 1), (2, 1), (0, 2), (1, 2)]
  | .S, _ => [(0, 0), (0, 1), (1, 1), (1, 2)]
  | .T, 0 => [(1, 0), (0, 1), (1, 1), (2, 1)]
  | .T, 1 => [(1, 0), (1, 1), (2, 1), (1, 2)]
  | .T, 2 => [(0, 1), (1, 1), (2, 1), (1, 2)]
  | .T, _ => [(1, 0), (0, 1), (1, 1), (1, 2)]
  | .Z, 0 => [(0, 0), (1, 0), (1, 1), (2, 1)]
  | .Z, 1 => [(2, 0), (1, 1), (2, 1), (1, 2)]
  | .Z, 2 => [(0, 1), (1, 1), (1, 2), (2, 2)]
  | .Z, _ => [(1, 0), (0, 1), (1, 1), (0, 2)]

/-- A piece value: kind, rotation index and bounding-box origin (class
`Piece` of src/main.py). -/
structure Piece where
  kind : Kind
  rotation : ℤ
  x : ℤ
  y : ℤ
deriving DecidableEq

/-- Method `Piece.blocks`: the 4 absolute cells occupied by the piece. -/
def Piece.blocks (p : Piece) : List (ℤ × ℤ) :=
  (tetrominoes p.kind p.rotation).map (fun b => (p.x + b.1, p.y + b.2))

/-- Method `Piece.rotated`: new piece with rotation advanced by `delta`
(mod 4). -/
def Piece.rotated (p : Piece) (delta : ℤ) : Piece :=
  ⟨p.kind, (p.rotation + delta) % 4, p.x, p.y⟩

/-- The playfield (class `Board` of src/main.py): `height + hidden` rows of
`width` cells, each cell `none` (empty) or the kind locked into it. -/
structure Board where
  width : ℕ
  height : ℕ
  hidden : ℕ
  grid : List (List (Option Kind))
deriving DecidableEq

/-- Constructor `Board.__init__`: an all-empty grid of `height + hidden`
rows by `width` columns. -/
def Board.init (width height hidden : ℕ) : Board :=
  ⟨width, height, hidden, List.replicate (height + hidden) (List.replicate width none)⟩

/-- Method `Board.inside`: `0 <= x < width and 0 <= y < height + hidden`. -/
def Board.inside (b : Board) (x y : ℤ) : Bool :=
  decide (0 ≤ x ∧ x < (b.width : ℤ) ∧ 0 ≤ y ∧ y < (b.height : ℤ) + (b.hidden : ℤ))

/-- The cell `grid[y][x]`; meaningful for in-bounds coordinates (the code
only reads cells after an `inside` check). -/
def Board.cell (b : Board) (x y : ℤ) : Option Kind :=
  (b.grid.getD y.toNat []).getD x.toNat none

/-- Method `Board.empty`: false when out of bounds, else true iff the cell
holds no kind. -/
def Board.empty (b : Board) (x y : ℤ) : Bool :=
  if b.inside x y then (b.cell x y).isNone else false

/-- Method `Board.valid`: all 4 blocks are inside and empty. -/
def Board.valid (b : Board) (p : Piece) : Bool :=
  p.blocks.all (fun c => b.inside c.1 c.2 && b.empty c.1 c.2)

/-- Assignment `grid[y][x] = some k` on the raw grid (row update via
`List.set`). -/
def setCell (g : List (List (Option Kind))) (x y : ℕ) (k : Kind) :
    List (List (Option Kind)) :=
  g.set y ((g.getD y []).set x (some k))

/-- Method `Board.place`: write each in-bounds block of the piece into the
grid (no validity check; out-of-bounds blocks are skipped). -/
def Board.place (b : Board) (p : Piece) : Board :=
  { b with
    grid := p.blocks.foldl
      (fun g c => if b.inside c.1 c.2 then setCell g c.1.toNat c.2.toNat p.kind else g)
      b.grid }

/-- A row is full iff every cell is occupied. -/
def rowFull (row : List (Option Kind)) : Bool :=
  row.all (fun c => c.isSome)

/-- Method `Board.clear_lines`: count and drop the full rows (keeping the
rest in order), prepend that many fresh empty rows, return the count and
the new board. -/
def Board.clear_lines (b : Board) : ℕ × Board :=
  let r := b.grid.foldl
    (fun a row => if rowFull row then (a.1 + 1, a.2) else (a.1, a.2 ++ [row]))
    (0, [])
  (r.1, { b with grid := List.replicate r.1 (List.replicate b.width none) ++ r.2 })

/-- Method `Board.game_over`: some cell of the hidden rows (rows
`0..hidden-1`) is occupied. -/
def Board.game_over (b : Board) : Bool :=
  (List.range b.hidden).any (fun y =>
    (List.range b.width).any (fun x => ((b.grid.getD y []).getD x none).isSome))

/-- Method `level_to_interval`: `max(0.05, 1.0 * 0.85**level)`, the Python
floats modelled as the exact rationals 1/20 and 17/20. -/
def level_to_interval (level : ℕ) : ℚ :=
  max (1 / 20 : ℚ) (1 * (17 / 20 : ℚ) ^ level)

/-- The mutable state of class `TetrisGame` (engine fields only; the curses
screen is the excluded renderer).  `entropy` models `random.shuffle`: an
injected stream whose `ridx`-th element is the shuffled copy of
`list(TETROMINOES.keys())` produced by the `ridx`-th call, hence always a
permutation of the seven kinds. -/
structure GameState where
  board : Board
  score : ℕ
  level : ℕ
  lines : ℕ
  bag : List Kind
  next_piece : Option Kind
  current : Option Piece
  drop_interval : ℚ
  last_drop_time : ℚ
  gameover : Bool
  paused : Bool
  entropy : ℕ → { l : List Kind // l.Perm allKinds }
  ridx : ℕ

/-- Method `refill_bag`: extend the bag with the next shuffled permutation
of all seven kinds. -/
def refillBag (st : GameState) : GameState :=
  { st with bag := st.bag ++ (st.entropy st.ridx).val, ridx := st.ridx + 1 }

/-- Method `next_from_bag`: refill when the bag is empty, then pop the
front kind.  The `[]` branch is unreachable: a refill always appends seven
kinds (Python would raise `IndexError` from `pop(0)` there). -/
def nextFromBag (st : GameState) : Kind × GameState :=
  let st' := if st.bag.isEmpty then refillBag st else st
  match st'.bag with
  | [] => (Kind.I, st')
  | k :: rest => (k, { st' with bag := rest })

/-- The body of `spawn_next` after the seeding branch: `kind` is the queued
next piece; draw a new next kind, place the fresh piece at
`(width // 2 - 2, 0)`, and latch `gameover` when the spawn is invalid. -/
def spawnWith (kind : Kind) (st : GameState) : GameState :=
  let r := nextFromBag st
  let p : Piece := ⟨kind, 0, (st.board.width : ℤ) / 2 - 2, 0⟩
  let st2 := { r.2 with next_piece := some r.1, current := some p }
  if st2.board.valid p then st2 else { st2 with gameover := true }

/-- Method `spawn_next`: seed `next_piece` from the bag if it was never
set, then spawn it as the current piece and queue a fresh next kind. -/
def spawnNext (st : GameState) : GameState :=
  match st.next_piece with
  | none =>
    let r := nextFromBag st
    spawnWith r.1 { r.2 with next_piece := some r.1 }
  | some k => spawnWith k st

/-- The rotation candidate tried by `rotate_current`:
`Piece(new_piece.kind, new_piece.rotation, new_piece.x + dx, new_piece.y)`. -/
def cand (np : Piece) (dx : ℤ) : Piece :=
  ⟨np.kind, np.rotation, np.x + dx, np.y⟩

/-- Method `rotate_current`: rotate by `delta` and commit the first valid
candidate among the horizontal kick offsets `(0, -1, 1, -2, 2)` (the `for`
loop unrolled); leave the state unchanged when none validates or when there
is no current piece. -/
def rotateCurrent (st : GameState) (delta : ℤ) : GameState :=
  match st.current with
  | none => st
  | some c =>
    let np := c.rotated delta
    if st.board.valid (cand np 0) then { st with current := some (cand np 0) }
    else if st.board.valid (cand np (-1)) then { st with current := some (cand np (-1)) }
    else if st.board.valid (cand np 1) then { st with current := some (cand np 1) }
    else if st.board.valid (cand np (-2)) then { st with current := some (cand np (-2)) }
    else if st.board.valid (cand np 2) then { st with current := some (cand np 2) }
    else st

/-- Method `move_current`: translate the current piece by `(dx, dy)`;
commit it and return true when valid, else leave the state unchanged and
return false (also when there is no current piece). -/
def moveCurrent (st : GameState) (dx dy : ℤ) : Bool × GameState :=
  match st.current with
  | none => (false, st)
  | some c =>
    let moved : Piece := ⟨c.kind, c.rotation, c.x + dx, c.y + dy⟩
    if st.board.valid moved then (true, { st with current := some moved })
    else (false, st)

/-- Method `lock_piece`: place the current piece, clear lines, award score
by the `{1: 40, 2: 100, 3: 300, >=4: 1200} * (level + 1)` table, add the
cleared count to `lines`, recompute `level := lines // 10` and (only on a
level change) the drop interval, then spawn the next piece.  `none` models
the `AttributeError` Python raises when `current` is `None`. -/
def lockPiece (st : GameState) : Option GameState :=
  match st.current with
  | none => none
  | some c =>
    let r := (st.board.place c).clear_lines
    let st1 := { st with board := r.2 }
    let st2 :=
      if r.1 ≠ 0 then
        let st1a := { st1 with
          score := st1.score +
            (if r.1 = 1 then 40 * (st1.level + 1)
             else if r.1 = 2 then 100 * (st1.level + 1)
             else if r.1 = 3 then 300 * (st1.level + 1)
             else 1200 * (st1.level + 1)),
          lines := st1.lines + r.1 }
        if st1a.lines / 10 ≠ st1a.level then
          { st1a with level := st1a.lines / 10,
                      drop_interval := level_to_interval (st1a.lines / 10) }
        else st1a
      else st1
    some (spawnNext st2)

/-- Method `tick`, with `time.time()` passed explicitly as `now`.  Paused
or game-over states only reset the drop timer; otherwise after the gravity
threshold a downward move is attempted and a failed move locks immediately,
resetting the timer. -/
def tick (st : GameState) (now : ℚ) : Option GameState :=
  if st.paused || st.gameover then some { st with last_drop_time := now }
  else if st.drop_interval ≤ now - st.last_drop_time then
    let r := moveCurrent st 0 1
    if r.1 then some { r.2 with last_drop_time := now }
    else (lockPiece r.2).map (fun s => { s with last_drop_time := now })
  else some st

/-- Draw `n` kinds in sequence from the bag (iterated `next_from_bag`). -/
def drawN : GameState → ℕ → List Kind × GameState
  | st, 0 => ([], st)
  | st, n + 1 =>
    let r := nextFromBag st
    let r' := drawN r.2 n
    (r.1 :: r'.1, r'.2)

/-- The board mutations of the repository: `place` and `clear_lines`. -/
inductive BoardOp
| pl (p : Piece)
| cl

/-- Apply one board operation. -/
def applyBoardOp (b : Board) : BoardOp → Board
  | .pl p => b.place p
  | .cl => (b.clear_lines).2

/-- The gameplay operations of the engine that are guarded (or harmless)
after game over: move, rotate and tick. -/
inductive GOp
| mv (dx dy : ℤ)
| rot (delta : ℤ)
| tk (now : ℚ)

/-- Apply one engine operation (`none` models a Python exception). -/
def applyGOp (st : GameState) : GOp → Option GameState
  | .mv dx dy => some (moveCurrent st dx dy).2
  | .rot delta => some (rotateCurrent st delta)
  | .tk now => tick st now

/-- Apply a sequence of engine operations. -/
def applyGOps : GameState → List GOp → Option GameState
  | st, [] => some st
  | st, op :: ops => (applyGOp st op).bind (fun s => applyGOps s ops)

/-- A fixed entropy stream for concrete test states: every shuffle returns
the kinds in catalog order. -/
def defEntropy : ℕ → { l : List Kind // l.Perm allKinds } :=
  fun _ => ⟨allKinds, List.Perm.refl allKinds⟩

/-- An empty standard-shaped small board used by concrete test states. -/
def bSmall : Board := Board.init 6 2 2

/-- A live state whose current O piece sits entirely inside the hidden
rows, away from the spawn footprint. -/
def stC1 : GameState :=
  { board := bSmall, score := 0, level := 0, lines := 0, bag := [Kind.J],
    next_piece := some Kind.O, current := some ⟨Kind.O, 0, -1, 0⟩,
    drop_interval := 1, last_drop_time := 0, gameover := false,
    paused := false, entropy := defEntropy, ridx := 0 }

/-- A paused, non-game-over state holding a movable O piece. -/
def stC2 : GameState :=
  { board := bSmall, score := 0, level := 0, lines := 0, bag := [Kind.J],
    next_piece := some Kind.O, current := some ⟨Kind.O, 0, 0, 0⟩,
    drop_interval := 1, last_drop_time := 0, gameover := false, paused := true,
    entropy := defEntropy, ridx := 0 }

/-- A game-over state still holding a piece, on the empty small board. -/
def stC3 : GameState :=
  { board := bSmall, score := 0, level := 0, lines := 0, bag := [Kind.J],
    next_piece := some Kind.O, current := some ⟨Kind.O, 0, -1, 0⟩,
    drop_interval := 1, last_drop_time := 0, gameover := true,
    paused := false, entropy := defEntropy, ridx := 0 }

/-- A board whose spawn footprint (O spawning at x = 0) is blocked in the
hidden rows. -/
def stC4 : GameState :=
  { board := ⟨4, 1, 2, [[none, some Kind.I, none, none],
      List.replicate 4 none, List.replicate 4 none]⟩,
    score := 0, level := 0, lines := 0, bag := [Kind.J],
    next_piece := some Kind.O, current := none, drop_interval := 1,
    last_drop_time := 0, gameover := false, paused := false,
    entropy := defEntropy, ridx := 0 }

/-- A fresh engine state with an empty bag. -/
def stC5 : GameState :=
  { board := bSmall, score := 0, level := 0, lines := 0, bag := [],
    next_piece := none, current := none, drop_interval := 1,
    last_drop_time := 0, gameover := false, paused := false,
    entropy := defEntropy, ridx := 0 }

/-- An O piece whose four cells exactly fill the 2-wide test board. -/
def pC7 : Piece := ⟨Kind.O, 0, -1, 0⟩

/-- A state about to lock `pC7`, filling and clearing both rows. -/
def stC7 : GameState :=
  { board := Board.init 2 1 1, score := 0, level := 0, lines := 0,
    bag := [Kind.J], next_piece := some Kind.I, current := some pC7,
    drop_interval := 1, last_drop_time := 0, gameover := false,
    paused := false, entropy := defEntropy, ridx := 0 }

/-- The T piece used in the rotation-kick test state. -/
def pC8 : Piece := ⟨Kind.T, 0, 1, 0⟩

/-- A board where pC8 rotated clockwise is blocked at offset 0 (cell (3,1)
is settled) but fits at offset -1. -/
def stC8 : GameState :=
  { board := ⟨4, 2, 2, [List.replicate 4 none,
      [none, none, none, some Kind.I], List.replicate 4 none,
      List.replicate 4 none]⟩,
    score := 0, level := 0, lines := 0, bag := [], next_piece := some Kind.O,
    current := some pC8, drop_interval := 1, last_drop_time := 0,
    gameover := false, paused := false, entropy := defEntropy, ridx := 0 }

/-- Board with one settled hidden-row cell, used in the C9 witness. -/
def bC9 : Board := ⟨4, 2, 2, [[some Kind.I, none, none, none],
  List.replicate 4 none, List.replicate 4 none, List.replicate 4 none]⟩

/-- The O piece whose 4 cells are all free on `bC9`. -/
def pC9 : Piece := ⟨Kind.O, 0, 0, 0⟩

lemma nextFromBag_cons (st : GameState) (k : Kind) (rest : List Kind)
    (h : st.bag = k :: rest) :
    nextFromBag st = (k, { st with bag := rest }) := by
  simp [nextFromBag, h]

lemma nextFromBag_frame (st : GameState) :
    (nextFromBag st).2.board = st.board ∧ (nextFromBag st).2.score = st.score ∧
    (nextFromBag st).2.level = st.level ∧ (nextFromBag st).2.lines = st.lines ∧
    (nextFromBag st).2.drop_interval = st.drop_interval ∧
    (nextFromBag st).2.last_drop_time = st.last_drop_time ∧
    (nextFromBag st).2.gameover = st.gameover ∧
    (nextFromBag st).2.paused = st.paused ∧
    (nextFromBag st).2.next_piece = st.next_piece ∧
    (nextFromBag st).2.current = st.current ∧
    (nextFromBag st).2.entropy = st.entropy := by
  unfold nextFromBag refillBag
  dsimp only
  split <;> split <;> simp_all

lemma spawnWith_frame (k : Kind) (st : GameState) :
    (spawnWith k st).board = st.board ∧ (spawnWith k st).score = st.score ∧
    (spawnWith k st).level = st.level ∧ (spawnWith k st).lines = st.lines ∧
    (spawnWith k st).drop_interval = st.drop_interval ∧
    (spawnWith k st).last_drop_time = st.last_drop_time ∧
    (spawnWith k st).paused = st.paused := by
  unfold spawnWith
  dsimp only
  have h := nextFromBag_frame st
  split <;> simp_all

lemma spawnNext_frame (st : GameState) :
    (spawnNext st).board = st.board ∧ (spawnNext st).score = st.score ∧
    (spawnNext st).level = st.level ∧ (spawnNext st).lines = st.lines ∧
    (spawnNext st).drop_interval = st.drop_interval ∧
    (spawnNext st).last_drop_time = st.last_drop_time ∧
    (spawnNext st).paused = st.paused := by
  unfold spawnNext
  match h : st.next_piece with
  | none =>
    dsimp only
    have h1 := nextFromBag_frame st
    have h2 := spawnWith_frame (nextFromBag st).1
      { (nextFromBag st).2 with next_piece := some (nextFromBag st).1 }
    simp_all
  | some k =>
    dsimp only
    exact spawnWith_frame k st

lemma moveCurrent_frame (st : GameState) (dx dy : ℤ) :
    (moveCurrent st dx dy).2.board = st.board ∧
    (moveCurrent st dx dy).2.score = st.score ∧
    (moveCurrent st dx dy).2.level = st.level ∧
    (moveCurrent st dx dy).2.lines = st.lines ∧
    (moveCurrent st dx dy).2.drop_interval = st.drop_interval ∧
    (moveCurrent st dx dy).2.last_drop_time = st.last_drop_time ∧
    (moveCurrent st dx dy).2.gameover = st.gameover ∧
    (moveCurrent st dx dy).2.paused = st.paused := by
  unfold moveCurrent
  match h : st.current with
  | none => simp
  | some c =>
    dsimp only
    split <;> simp

lemma rotateCurrent_frame (st : GameState) (delta : ℤ) :
    (rotateCurrent st delta).board = st.board ∧
    (rotateCurrent st delta).score = st.score ∧
    (rotateCurrent st delta).level = st.level ∧
    (rotateCurrent st delta).lines = st.lines ∧
    (rotateCurrent st delta).drop_interval = st.drop_interval ∧
    (rotateCurrent st delta).last_drop_time = st.last_drop_time ∧
    (rotateCurrent st delta).gameover = st.gameover ∧
    (rotateCurrent st delta).paused = st.paused := by
  unfold rotateCurrent
  match h : st.current with
  | none => simp
  | some c =>
    dsimp only
    split
    · simp
    · split
      · simp
      · split
        · simp
        · split
          · simp
          · split <;> simp

lemma tick_gameover (st : GameState) (now : ℚ) (h : st.gameover = true) :
    tick st now = some { st with last_drop_time := now } := by
  simp [tick, h]

/-- C1: `lock_piece` never consults `Board.game_over` (the method is dead
code in src/main.py), so locking a piece into the hidden rows leaves the
engine's `gameover` flag false whenever the subsequent spawn still fits —
although `Board.game_over` reports true on the resulting board. -/
theorem lock_hidden_rows_unchecked :
    stC1.gameover = false ∧
    (lockPiece stC1).map (fun s => (s.gameover, s.board.game_over)) =
      some (false, true) := by
  decide

/-- C2 counterexample: in a paused state, `move_current` still commits a
valid translated piece and returns true — it is not the claimed no-op
(neither `paused` nor `gameover` is checked by `move_current`). -/
theorem move_paused_not_noop :
    stC2.paused = true ∧ stC2.gameover = false ∧
    (moveCurrent stC2 1 0).1 = true ∧
    (moveCurrent stC2 1 0).2.current ≠ stC2.current := by decide

/-- C2 (amended): `move_current` is a no-op returning false exactly when
`current` is none or the translated piece is invalid; otherwise it commits
exactly the translated piece and returns true.  `paused`/`gameover` play no
role. -/
theorem moveCurrent_behavior (st : GameState) (dx dy : ℤ) :
    (st.current = none → moveCurrent st dx dy = (false, st)) ∧
    (∀ c : Piece, st.current = some c →
      (st.board.valid ⟨c.kind, c.rotation, c.x + dx, c.y + dy⟩ = true →
        moveCurrent st dx dy =
          (true, { st with current := some ⟨c.kind, c.rotation, c.x + dx, c.y + dy⟩ })) ∧
      (st.board.valid ⟨c.kind, c.rotation, c.x + dx, c.y + dy⟩ = false →
        moveCurrent st dx dy = (false, st))) := by
  refine ⟨fun h => by simp [moveCurrent, h], fun c hc => ⟨fun hv => ?_, fun hv => ?_⟩⟩ <;>
    simp [moveCurrent, hc, hv]

/-- C2 witness: a successful move from the concrete paused state, via the
amended theorem. -/
theorem moveCurrent_behavior_witness :
    moveCurrent stC2 1 0 = (true, { stC2 with current := some ⟨Kind.O, 0, 1, 0⟩ }) :=
  ((moveCurrent_behavior stC2 1 0).2 ⟨Kind.O, 0, 0, 0⟩ rfl).1 (by decide)

lemma applyGOp_gameover_frame (st : GameState) (op : GOp)
    (h : st.gameover = true) :
    ∃ s, applyGOp st op = some s ∧ s.score = st.score ∧ s.level = st.level ∧
      s.board.grid = st.board.grid ∧ s.gameover = true := by
  cases op with
  | mv dx dy =>
    obtain ⟨hb, hs, hl, hln, hdi, hld, hg, hp⟩ := moveCurrent_frame st dx dy
    exact ⟨(moveCurrent st dx dy).2, rfl, hs, hl, by rw [hb], by rw [hg, h]⟩
  | rot delta =>
    obtain ⟨hb, hs, hl, hln, hdi, hld, hg, hp⟩ := rotateCurrent_frame st delta
    exact ⟨rotateCurrent st delta, rfl, hs, hl, by rw [hb], by rw [hg, h]⟩
  | tk now =>
    refine ⟨{ st with last_drop_time := now }, ?_, rfl, rfl, rfl, h⟩
    exact tick_gameover st now h

/-- C3 counterexample: `lock_piece` is not guarded by `gameover` — invoked
on a game-over state it still writes the piece into the board, changing the
grid contents the claim says stay unchanged. -/
theorem gameover_lock_mutates :
    stC3.gameover = true ∧
    (lockPiece stC3).map (fun s => s.board.grid) ≠ some stC3.board.grid := by
  decide

/-- C3 (amended): once `gameover` is true, any finite sequence of move,
rotate and tick operations leaves score, level, board grid and the
`gameover` flag unchanged (lock, which is unguarded, is excluded). -/
theorem gameover_frame (st : GameState) (h : st.gameover = true)
    (ops : List GOp) :
    ∃ st', applyGOps st ops = some st' ∧ st'.score = st.score ∧
      st'.level = st.level ∧ st'.board.grid = st.board.grid ∧
      st'.gameover = true := by
  induction ops generalizing st with
  | nil => exact ⟨st, rfl, rfl, rfl, rfl, h⟩
  | cons op rest ih =>
    obtain ⟨s, hop, hs, hl, hb, hg⟩ := applyGOp_gameover_frame st op h
    obtain ⟨st', hrest, hs', hl', hb', hg'⟩ := ih s hg
    refine ⟨st', ?_, hs'.trans hs, hl'.trans hl, hb'.trans hb, hg'⟩
    show (applyGOp st op).bind (fun s => applyGOps s rest) = some st'
    rw [hop]
    exact hrest

/-- C3 witness: a concrete move/rotate/tick run from the concrete game-over
state. -/
theorem gameover_frame_witness :
    ∃ st', applyGOps stC3 [GOp.mv 1 0, GOp.rot 1, GOp.tk 0] = some st' ∧
      st'.score = stC3.score ∧ st'.level = stC3.level ∧
      st'.board.grid = stC3.board.grid ∧ st'.gameover = true :=
  gameover_frame stC3 rfl [GOp.mv 1 0, GOp.rot 1, GOp.tk 0]

/-- C4: a spawn whose fresh piece is invalid on the board latches
`gameover`, mutates no board cell, and leaves `current` holding exactly the
invalid spawn piece. -/
theorem spawn_blockout (st : GameState) (k : Kind) (h : st.next_piece = some k)
    (hinv : st.board.valid ⟨k, 0, (st.board.width : ℤ) / 2 - 2, 0⟩ = false) :
    (spawnNext st).gameover = true ∧ (spawnNext st).board = st.board ∧
    (spawnNext st).current = some ⟨k, 0, (st.board.width : ℤ) / 2 - 2, 0⟩ := by
  unfold spawnNext
  rw [h]
  unfold spawnWith
  dsimp only
  have hb := (nextFromBag_frame st).1
  rw [hb, hinv]
  simp [hb]

/-- C4 witness: spawning onto the pre-filled footprint ends the game
without touching the board. -/
theorem spawn_blockout_witness :
    (spawnNext stC4).gameover = true ∧ (spawnNext stC4).board = stC4.board ∧
    (spawnNext stC4).current = some ⟨Kind.O, 0, (stC4.board.width : ℤ) / 2 - 2, 0⟩ :=
  spawn_blockout stC4 Kind.O rfl (by decide)

lemma drawN_bag (l : List Kind) : ∀ (st : GameState), st.bag = l →
    (drawN st l.length).1 = l ∧ (drawN st l.length).2.bag = [] ∧
    (drawN st l.length).2.ridx = st.ridx ∧
    (drawN st l.length).2.entropy = st.entropy := by
  induction l with
  | nil => intro st h; exact ⟨rfl, h, rfl, rfl⟩
  | cons k rest ih =>
    intro st h
    have hn := nextFromBag_cons st k rest h
    have ihh := ih { st with bag := rest } rfl
    simp only [List.length_cons, drawN, hn]
    exact ⟨by rw [ihh.1], ihh.2.1, ihh.2.2.1, ihh.2.2.2⟩

lemma entropy_length (st : GameState) (n : ℕ) :
    (st.entropy n).val.length = 7 :=
  (st.entropy n).property.length_eq.trans rfl

lemma drawN_refill (st : GameState) (h : st.bag = []) :
    (drawN st 7).1 = (st.entropy st.ridx).val ∧ (drawN st 7).2.bag = [] ∧
    (drawN st 7).2.ridx = st.ridx + 1 ∧
    (drawN st 7).2.entropy = st.entropy := by
  have hlen := entropy_length st st.ridx
  obtain ⟨a, t, hat⟩ : ∃ a t, (st.entropy st.ridx).val = a :: t := by
    cases hv : (st.entropy st.ridx).val with
    | nil => rw [hv] at hlen; simp at hlen
    | cons a t => exact ⟨a, t, rfl⟩
  have hn : nextFromBag st = (a, { st with bag := t, ridx := st.ridx + 1 }) := by
    unfold nextFromBag refillBag
    dsimp only
    rw [h]
    simp [hat]
  have ht : t.length = 6 := by
    rw [hat] at hlen
    simpa using hlen
  have ihh := drawN_bag t { st with bag := t, ridx := st.ridx + 1 } rfl
  rw [show (7 : ℕ) = t.length + 1 from by omega]
  simp only [drawN, hn]
  refine ⟨?_, ihh.2.1, ?_, ?_⟩
  · rw [ihh.1]
    exact hat.symm
  · rw [ihh.2.2.1]
  · rw [ihh.2.2.2]

lemma drawN_add (a : ℕ) : ∀ (b : ℕ) (st : GameState),
    (drawN st (a + b)).1 = (drawN st a).1 ++ (drawN (drawN st a).2 b).1 ∧
    (drawN st (a + b)).2 = (drawN (drawN st a).2 b).2 := by
  induction a with
  | zero => intro b st; simp [drawN]
  | succ n ih =>
    intro b st
    rw [show n + 1 + b = (n + b) + 1 from by omega]
    simp only [drawN]
    obtain ⟨h1, h2⟩ := ih b (nextFromBag st).2
    constructor
    · rw [h1]
      simp
    · exact h2

lemma drawN_chunk : ∀ (i : ℕ) (st : GameState), st.bag = [] → ∀ (m : ℕ), i < m →
    ((drawN st (7 * m)).1.drop (7 * i)).take 7 = (st.entropy (st.ridx + i)).val := by
  intro i
  induction i with
  | zero =>
    intro st h m hm
    obtain ⟨m', rfl⟩ : ∃ m', m = m' + 1 := ⟨m - 1, by omega⟩
    rw [show 7 * (m' + 1) = 7 + 7 * m' from by ring, (drawN_add 7 (7 * m') st).1,
      (drawN_refill st h).1, Nat.mul_zero, List.drop_zero,
      List.take_left' (entropy_length st st.ridx), Nat.add_zero]
  | succ i ih =>
    intro st h m hm
    obtain ⟨m', rfl⟩ : ∃ m', m = m' + 1 := ⟨m - 1, by omega⟩
    have hr := drawN_refill st h
    rw [show 7 * (m' + 1) = 7 + 7 * m' from by ring, (drawN_add 7 (7 * m') st).1,
      hr.1, show 7 * (i + 1) = 7 + 7 * i from by ring, ← List.drop_drop,
      List.drop_left' (entropy_length st st.ridx),
      ih (drawN st 7).2 hr.2.1 m' (by omega), hr.2.2.1, hr.2.2.2,
      show st.ridx + 1 + i = st.ridx + (i + 1) from by omega]

/-- C5: starting from any state with an empty bag, partition any prefix of
the drawn-kind sequence into consecutive runs of 7 aligned to refill
boundaries: every such run is a permutation of all 7 kinds (hence has no
repeats).  The bag is refilled with a whole shuffled 7-permutation exactly
when it empties, so run `i` is exactly the `i`-th shuffle. -/
theorem bag_seven_runs (st : GameState) (h : st.bag = []) (m i : ℕ)
    (him : i < m) :
    (((drawN st (7 * m)).1.drop (7 * i)).take 7).Perm allKinds := by
  rw [drawN_chunk i st h m him]
  exact (st.entropy (st.ridx + i)).property

/-- C5 witness: the first 7-draw run from the concrete empty-bag state is a
permutation of the 7 kinds. -/
theorem bag_seven_runs_witness :
    (((drawN stC5 (7 * 1)).1.drop (7 * 0)).take 7).Perm allKinds :=
  bag_seven_runs stC5 rfl 1 0 (by decide)

lemma clear_fold (rows : List (List (Option Kind))) :
    ∀ (n : ℕ) (kept : List (List (Option Kind))),
      rows.foldl
        (fun a row => if rowFull row then (a.1 + 1, a.2) else (a.1, a.2 ++ [row]))
        (n, kept) =
      (n + rows.countP rowFull, kept ++ rows.filter (fun row => !rowFull row)) := by
  induction rows with
  | nil => intro n kept; simp
  | cons r rs ih =>
    intro n kept
    rw [List.foldl_cons]
    by_cases hr : rowFull r = true
    · simp only [hr, if_true, ih, List.countP_cons, hr, List.filter_cons]
      simp
      omega
    · simp only [Bool.not_eq_true] at hr
      simp only [hr, Bool.false_eq_true, if_false, ih, List.countP_cons,
        List.filter_cons]
      simp [hr]

/-- C6: `clear_lines` returns the number of full rows (0 when none is
full), removes exactly those rows keeping the rest in their original
relative order, and prepends that many fresh empty rows; board dimensions
are unchanged. -/
theorem clear_lines_spec (b : Board) :
    (b.clear_lines).1 = b.grid.countP rowFull ∧
    (b.clear_lines).2.grid =
      List.replicate (b.grid.countP rowFull) (List.replicate b.width none) ++
        b.grid.filter (fun row => !rowFull row) ∧
    (b.clear_lines).2.width = b.width ∧ (b.clear_lines).2.height = b.height ∧
    (b.clear_lines).2.hidden = b.hidden := by
  unfold Board.clear_lines
  rw [clear_fold]
  simp

lemma spawnNext_score (st : GameState) : (spawnNext st).score = st.score :=
  (spawnNext_frame st).2.1

lemma spawnNext_level (st : GameState) : (spawnNext st).level = st.level :=
  (spawnNext_frame st).2.2.1

lemma spawnNext_lines (st : GameState) : (spawnNext st).lines = st.lines :=
  (spawnNext_frame st).2.2.2.1

lemma spawnNext_interval (st : GameState) :
    (spawnNext st).drop_interval = st.drop_interval :=
  (spawnNext_frame st).2.2.2.2.1

/-- C7: a lock that clears `c` rows adds `{1: 40, 2: 100, 3: 300, >=4: 1200}
* (level + 1)` to the score (nothing for `c = 0`), adds `c` to the line
count, recomputes `level = lines / 10`, and recomputes the drop interval
exactly when the level changed.  The hypothesis `level = lines / 10` is the
engine invariant (it holds at construction and is re-established by every
lock). -/
theorem lock_scoring (st : GameState) (p : Piece) (hc : st.current = some p)
    (hlev : st.level = st.lines / 10) :
    ∃ st', lockPiece st = some st' ∧
      st'.score = st.score +
        (if ((st.board.place p).clear_lines).1 = 0 then 0
         else if ((st.board.place p).clear_lines).1 = 1 then 40 * (st.level + 1)
         else if ((st.board.place p).clear_lines).1 = 2 then 100 * (st.level + 1)
         else if ((st.board.place p).clear_lines).1 = 3 then 300 * (st.level + 1)
         else 1200 * (st.level + 1)) ∧
      st'.lines = st.lines + ((st.board.place p).clear_lines).1 ∧
      st'.level = (st.lines + ((st.board.place p).clear_lines).1) / 10 ∧
      st'.drop_interval =
        (if (st.lines + ((st.board.place p).clear_lines).1) / 10 = st.level
         then st.drop_interval
         else level_to_interval ((st.lines + ((st.board.place p).clear_lines).1) / 10)) := by
  unfold lockPiece
  rw [hc]
  dsimp only
  generalize (st.board.place p).clear_lines = r
  refine ⟨_, rfl, ?_, ?_, ?_, ?_⟩
  · rw [spawnNext_score]
    split_ifs with h1 h2 h3 h4 h5 <;> simp_all
  · rw [spawnNext_lines]
    split_ifs with h1 h2 <;> simp_all
  · rw [spawnNext_level]
    split_ifs with h1 h2 <;> simp_all
  · rw [spawnNext_interval]
    split_ifs with h1 h2 <;> simp_all

/-- C7 witness: locking `pC7` on the concrete state (a double line clear at
level 0). -/
theorem lock_scoring_witness :
    ∃ st', lockPiece stC7 = some st' ∧
      st'.score = stC7.score +
        (if ((stC7.board.place pC7).clear_lines).1 = 0 then 0
         else if ((stC7.board.place pC7).clear_lines).1 = 1 then 40 * (stC7.level + 1)
         else if ((stC7.board.place pC7).clear_lines).1 = 2 then 100 * (stC7.level + 1)
         else if ((stC7.board.place pC7).clear_lines).1 = 3 then 300 * (stC7.level + 1)
         else 1200 * (stC7.level + 1)) ∧
      st'.lines = stC7.lines + ((stC7.board.place pC7).clear_lines).1 ∧
      st'.level = (stC7.lines + ((stC7.board.place pC7).clear_lines).1) / 10 ∧
      st'.drop_interval =
        (if (stC7.lines + ((stC7.board.place pC7).clear_lines).1) / 10 = stC7.level
         then stC7.drop_interval
         else level_to_interval
           ((stC7.lines + ((stC7.board.place pC7).clear_lines).1) / 10)) :=
  lock_scoring stC7 pC7 rfl (by decide)

/-- C8: `rotate_current` tries the rotated piece at the horizontal offsets
0, -1, +1, -2, +2 in exactly that order (y unchanged), commits the first
valid candidate, and silently leaves the state unchanged when all five
fail. -/
theorem rotate_kick_order (st : GameState) (c : Piece)
    (h : st.current = some c) (delta : ℤ) :
    (st.board.valid (cand (c.rotated delta) 0) = false →
      st.board.valid (cand (c.rotated delta) (-1)) = false →
      st.board.valid (cand (c.rotated delta) 1) = false →
      st.board.valid (cand (c.rotated delta) (-2)) = false →
      st.board.valid (cand (c.rotated delta) 2) = false →
      rotateCurrent st delta = st) ∧
    (st.board.valid (cand (c.rotated delta) 0) = true →
      rotateCurrent st delta = { st with current := some (cand (c.rotated delta) 0) }) ∧
    (st.board.valid (cand (c.rotated delta) 0) = false →
      st.board.valid (cand (c.rotated delta) (-1)) = true →
      rotateCurrent st delta = { st with current := some (cand (c.rotated delta) (-1)) }) ∧
    (st.board.valid (cand (c.rotated delta) 0) = false →
      st.board.valid (cand (c.rotated delta) (-1)) = false →
      st.board.valid (cand (c.rotated delta) 1) = true →
      rotateCurrent st delta = { st with current := some (cand (c.rotated delta) 1) }) ∧
    (st.board.valid (cand (c.rotated delta) 0) = false →
      st.board.valid (cand (c.rotated delta) (-1)) = false →
      st.board.valid (cand (c.rotated delta) 1) = false →
      st.board.valid (cand (c.rotated delta) (-2)) = true →
      rotateCurrent st delta = { st with current := some (cand (c.rotated delta) (-2)) }) ∧
    (st.board.valid (cand (c.rotated delta) 0) = false →
      st.board.valid (cand (c.rotated delta) (-1)) = false →
      st.board.valid (cand (c.rotated delta) 1) = false →
      st.board.valid (cand (c.rotated delta) (-2)) = false →
      st.board.valid (cand (c.rotated delta) 2) = true →
      rotateCurrent st delta = { st with current := some (cand (c.rotated delta) 2) }) := by
  refine ⟨?_, ?_, ?_, ?_, ?_, ?_⟩ <;> intros <;> simp [rotateCurrent, h, *]

/-- C8 witness: blocked at offset 0, the rotation commits the offset -1
candidate. -/
theorem rotate_kick_order_witness :
    rotateCurrent stC8 1 = { stC8 with current := some (cand (pC8.rotated 1) (-1)) } :=
  (rotate_kick_order stC8 pC8 rfl 1).2.2.1 (by decide) (by decide)

lemma getD_set_ne {α : Type} (l : List α) (i j : ℕ) (a d : α) (h : i ≠ j) :
    (l.set i a).getD j d = l.getD j d := by
  rw [List.getD_eq_getElem?_getD, List.getD_eq_getElem?_getD, List.getElem?_set_ne h]

lemma getD_set_lt {α : Type} (l : List α) (i : ℕ) (a d : α) (h : i < l.length) :
    (l.set i a).getD i d = a := by
  rw [List.getD_eq_getElem?_getD, List.getElem?_set_eq_of_lt a h]
  rfl

lemma setCell_getD_ne (g : List (List (Option Kind))) (x y : ℕ) (k : Kind)
    (i j : ℕ) (hne : x ≠ i ∨ y ≠ j) :
    ((setCell g x y k).getD j []).getD i none = (g.getD j []).getD i none := by
  unfold setCell
  by_cases hj : y = j
  · subst hj
    have hx : x ≠ i := by
      rcases hne with h | h
      · exact h
      · exact absurd rfl h
    by_cases hl : y < g.length
    · rw [getD_set_lt g y _ [] hl, getD_set_ne _ x i _ _ hx]
    · rw [List.set_eq_of_length_le (Nat.le_of_not_lt hl)]
  · rw [getD_set_ne g y j _ [] hj]

lemma place_outside_cell (b : Board) (p : Piece) (i j : ℕ)
    (h : b.width ≤ i ∨ b.height + b.hidden ≤ j) :
    ((b.place p).grid.getD j []).getD i none = (b.grid.getD j []).getD i none := by
  unfold Board.place
  dsimp only
  suffices hgen : ∀ (bl : List (ℤ × ℤ)) (g : List (List (Option Kind))),
      ((bl.foldl
        (fun g c => if b.inside c.1 c.2 then setCell g c.1.toNat c.2.toNat p.kind else g)
        g).getD j []).getD i none = (g.getD j []).getD i none from
    hgen p.blocks b.grid
  intro bl
  induction bl with
  | nil => intro g; rfl
  | cons c cs ih =>
    intro g
    rw [List.foldl_cons, ih]
    by_cases hc : b.inside c.1 c.2 = true
    · rw [if_pos hc]
      simp only [Board.inside, decide_eq_true_eq] at hc
      apply setCell_getD_ne
      rcases h with hw | hh
      · left; omega
      · right; omega
    · rw [if_neg (by simp [hc])]

lemma tetrominoes_length (k : Kind) (r : ℤ) : (tetrominoes k r).length = 4 := by
  unfold tetrominoes
  cases k <;> generalize (r % 4).toNat = m <;>
    rcases m with _ | _ | _ | _ | n <;> rfl

lemma valid_cell_iff (b : Board) (cx cy : ℤ) :
    (b.inside cx cy && b.empty cx cy) = true ↔
      (0 ≤ cx ∧ cx < (b.width : ℤ) ∧ 0 ≤ cy ∧
        cy < (b.height : ℤ) + (b.hidden : ℤ)) ∧ b.cell cx cy = none := by
  unfold Board.empty Board.inside
  by_cases hin : 0 ≤ cx ∧ cx < (b.width : ℤ) ∧ 0 ≤ cy ∧
      cy < (b.height : ℤ) + (b.hidden : ℤ)
  · simp [hin, Option.isNone_iff_eq_none]
  · simp [hin]

/-- C9: `valid(P)` is true iff all of P's 4 cells are in bounds and
unoccupied; `empty(x, y)` is false for every out-of-bounds coordinate; and
`place(P)` never changes any cell outside the board bounds, for every piece
including invalid ones. -/
theorem collision_soundness (b : Board) (p : Piece) (x y : ℤ) (i j : ℕ) :
    (b.valid p = true ↔ ∀ c ∈ p.blocks,
      (0 ≤ c.1 ∧ c.1 < (b.width : ℤ) ∧ 0 ≤ c.2 ∧
        c.2 < (b.height : ℤ) + (b.hidden : ℤ)) ∧ b.cell c.1 c.2 = none) ∧
    (¬ (0 ≤ x ∧ x < (b.width : ℤ) ∧ 0 ≤ y ∧
        y < (b.height : ℤ) + (b.hidden : ℤ)) → b.empty x y = false) ∧
    (b.width ≤ i ∨ b.height + b.hidden ≤ j →
      ((b.place p).grid.getD j []).getD i none = (b.grid.getD j []).getD i none) ∧
    p.blocks.length = 4 := by
  refine ⟨?_, ?_, place_outside_cell b p i j, ?_⟩
  · unfold Board.valid
    rw [List.all_eq_true]
    exact forall_congr' fun c => forall_congr' fun _ => valid_cell_iff b c.1 c.2
  · intro hout
    simp [Board.empty, Board.inside, hout]
  · simp [Piece.blocks, tetrominoes_length]

/-- C9 witness: a concrete valid piece, a concrete out-of-bounds `empty`
query, and a concrete out-of-bounds cell untouched by `place`. -/
theorem collision_soundness_witness :
    bC9.empty 99 0 = false ∧ bC9.valid pC9 = true ∧
    ((bC9.place pC9).grid.getD 5 []).getD 0 none = (bC9.grid.getD 5 []).getD 0 none ∧
    pC9.blocks.length = 4 := by
  have h := collision_soundness bC9 pC9 99 0 0 5
  exact ⟨h.2.1 (by decide), h.1.mpr (by decide), h.2.2.1 (by decide), h.2.2.2⟩

lemma countP_filter_not_length {α : Type} (p : α → Bool) (l : List α) :
    l.countP p + (l.filter (fun a => !p a)).length = l.length := by
  induction l with
  | nil => rfl
  | cons x xs ih =>
    by_cases h : p x = true <;>
      simp [List.countP_cons, List.filter_cons, h] <;> omega

lemma place_shape (b : Board) (p : Piece)
    (h1 : b.grid.length = b.height + b.hidden)
    (h2 : ∀ row ∈ b.grid, row.length = b.width) :
    (b.place p).grid.length = b.height + b.hidden ∧
    ∀ row ∈ (b.place p).grid, row.length = b.width := by
  unfold Board.place
  dsimp only
  suffices hgen : ∀ (bl : List (ℤ × ℤ)) (g : List (List (Option Kind))),
      g.length = b.height + b.hidden → (∀ row ∈ g, row.length = b.width) →
      (bl.foldl
        (fun g c => if b.inside c.1 c.2 then setCell g c.1.toNat c.2.toNat p.kind else g)
        g).length = b.height + b.hidden ∧
      ∀ row ∈ bl.foldl
        (fun g c => if b.inside c.1 c.2 then setCell g c.1.toNat c.2.toNat p.kind else g)
        g, row.length = b.width from hgen p.blocks b.grid h1 h2
  intro bl
  induction bl with
  | nil => intro g hg1 hg2; exact ⟨hg1, hg2⟩
  | cons c cs ih =>
    intro g hg1 hg2
    rw [List.foldl_cons]
    by_cases hc : b.inside c.1 c.2 = true
    · rw [if_pos hc]
      apply ih
      · rw [setCell, List.length_set]; exact hg1
      · intro row hrow
        rcases List.mem_or_eq_of_mem_set hrow with hmem | heq
        · exact hg2 row hmem
        · subst heq
          rw [List.length_set]
          simp only [Board.inside, decide_eq_true_eq] at hc
          have hy : c.2.toNat < g.length := by omega
          rw [List.getD_eq_getElem _ _ hy]
          exact hg2 _ (List.getElem_mem hy)
    · rw [if_neg (by simp [hc])]
      exact ih g hg1 hg2

lemma clear_shape (b : Board)
    (h1 : b.grid.length = b.height + b.hidden)
    (h2 : ∀ row ∈ b.grid, row.length = b.width) :
    (b.clear_lines).2.grid.length = b.height + b.hidden ∧
    ∀ row ∈ (b.clear_lines).2.grid, row.length = b.width := by
  unfold Board.clear_lines
  rw [clear_fold]
  dsimp only
  constructor
  · rw [List.length_append, List.length_replicate, Nat.zero_add, List.nil_append]
    rw [← h1]
    exact countP_filter_not_length rowFull b.grid
  · intro row hrow
    rcases List.mem_append.mp hrow with hl | hr
    · rw [List.eq_of_mem_replicate hl]
      exact List.length_replicate b.width none
    · rw [List.nil_append] at hr
      exact h2 row (List.mem_filter.mp hr).1

lemma applyBoardOp_dims (b : Board) (op : BoardOp) :
    (applyBoardOp b op).width = b.width ∧ (applyBoardOp b op).height = b.height ∧
    (applyBoardOp b op).hidden = b.hidden := by
  cases op <;> simp [applyBoardOp, Board.place, Board.clear_lines]

/-- C10: starting from the constructed board, any sequence of `place` and
`clear_lines` operations keeps exactly `height + hidden` rows of exactly
`width` cells each. -/
theorem board_shape_invariant (w h hid : ℕ) (ops : List BoardOp) :
    (ops.foldl applyBoardOp (Board.init w h hid)).grid.length = h + hid ∧
    ∀ row ∈ (ops.foldl applyBoardOp (Board.init w h hid)).grid, row.length = w := by
  suffices hgen : ∀ (b : Board), b.width = w → b.height = h → b.hidden = hid →
      b.grid.length = b.height + b.hidden → (∀ row ∈ b.grid, row.length = b.width) →
      (ops.foldl applyBoardOp b).grid.length = h + hid ∧
      ∀ row ∈ (ops.foldl applyBoardOp b).grid, row.length = w by
    refine hgen (Board.init w h hid) rfl rfl rfl ?_ ?_
    · simp [Board.init]
    · intro row hrow
      have hr : row = List.replicate w none := List.eq_of_mem_replicate hrow
      rw [hr]
      simp [Board.init]
  induction ops with
  | nil =>
    intro b hw hh Hhid hg1 hg2
    rw [List.foldl_nil]
    refine ⟨by rw [hg1, hh, Hhid], ?_⟩
    intro row hrow
    rw [hg2 row hrow, hw]
  | cons op rest ih =>
    intro b hw hh Hhid hg1 hg2
    rw [List.foldl_cons]
    have hdims := applyBoardOp_dims b op
    have hshape : (applyBoardOp b op).grid.length =
        (applyBoardOp b op).height + (applyBoardOp b op).hidden ∧
        ∀ row ∈ (applyBoardOp b op).grid, row.length = (applyBoardOp b op).width := by
      cases op with
      | pl p =>
        have := place_shape b p hg1 hg2
        simpa [applyBoardOp, hdims.1, hdims.2.1, hdims.2.2] using this
      | cl =>
        have := clear_shape b hg1 hg2
        simpa [applyBoardOp, hdims.1, hdims.2.1, hdims.2.2] using this
    exact ih (applyBoardOp b op) (hdims.1.trans hw) (hdims.2.1.trans hh)
      (hdims.2.2.trans Hhid) hshape.1 hshape.2

end Terminis
